import Mathlib

/-!
Shallow embedding of the HTTP server sources (src/http.c, src/server.c) as
executable Lean definitions.  Byte buffers are lists of characters; the C
string functions strstr and strchr are modelled by an index-returning
substring search, and null-terminated string reads are modelled by cutting
the buffer at the first NUL byte.  Fallible C code (null pointers,
undefined behaviour) is modelled with Option.
-/

/-- The NUL byte that terminates C strings. -/
def nul : Char := Char.ofNat 0

/-- Reading a buffer as a C string: everything up to the first NUL byte. -/
def cString (l : List Char) : List Char := l.takeWhile (fun c => c != nul)

/-- Index of the first occurrence of `needle` in `hay`, as C strstr
(for a one-character needle, C strchr).  `none` models a NULL result. -/
def strstr (needle : List Char) : List Char → Option Nat
  | [] => if needle <+: ([] : List Char) then some 0 else none
  | c :: t => if needle <+: (c :: t) then some 0 else (strstr needle t).map (· + 1)

/-- `needle` occurs in `hay` at index `i`. -/
def occursAt (needle hay : List Char) (i : Nat) : Prop := needle <+: hay.drop i

instance (needle hay : List Char) (i : Nat) : Decidable (occursAt needle hay i) := by
  unfold occursAt; infer_instance

/-- HTTP_LINE_END: end of line in an HTTP message. -/
def LINE_END : List Char := "\r\n".toList

/-- The HTTP/1.1 marker searched by the completeness check, with its line end. -/
def HTTP_MARKER : List Char := "HTTP/1.1\r\n".toList

/-- HTTP_HOST_FIELD: the Host field name. -/
def HOST_FIELD : List Char := "Host: ".toList

/-- HTTP_STATUS_OK. -/
def STATUS_OK : List Char := "HTTP/1.1 200 OK".toList

/-- HTTP_STATUS_ERROR. -/
def STATUS_ERROR : List Char := "HTTP/1.1 404 File Not Found".toList

/-- HTTP_CONTENT_LENGTH: content length header field name. -/
def CONTENT_LENGTH : List Char := "Content-Length: ".toList

/-- CLOSE_CONNECTION header. -/
def CLOSE_CONNECTION : List Char := "Connection: close".toList

/-- The string contents of the HTTP methods, in order of enum http_method. -/
def http_methods : List (List Char) :=
  ["GET", "HEAD", "POST", "PUT", "DELETE", "CONNECT", "OPTIONS", "TRACE", "PATCH"].map
    String.toList

/-- struct http_message.  The method is an index into http_methods
(`none` = HTTP_METHOD_EMPTY); the char pointer fields are `none` when NULL.
body_len holds whatever number the underlying memory holds; it is not
cleared by initialization. -/
structure Message where
  method : Option Nat
  status : Option (List Char)
  resource : Option (List Char)
  header : Option (List Char)
  body : Option (List Char)
  body_len : Nat
deriving DecidableEq

/-- A message value with everything empty (used as the base for fresh
stack-allocated messages whose body_len happens to be zero). -/
def emptyMessage : Message :=
  { method := none, status := none, resource := none, header := none, body := none,
    body_len := 0 }

/-- http_init_struct_message: sets method to HTTP_METHOD_EMPTY and the four
pointer fields to NULL; body_len is left untouched. -/
def http_init_struct_message (m : Message) : Message :=
  { m with method := none, status := none, resource := none, header := none, body := none }

/-- The for loop in http_get_method: try each method string in table order,
returning the enum index together with the position of the first literal
occurrence in the buffer. -/
def scanMethods (buf : List Char) : List (List Char) → Nat → Option (Nat × Nat)
  | [], _ => none
  | m :: rest, i =>
    match strstr m buf with
    | some p => some (i, p)
    | none => scanMethods buf rest (i + 1)

/-- http_get_method: on a message whose method is still empty, scan the
method table; if a method is found, record it in the message and return the
index of the first space at or after the match (strstr(pch, " ")); NULL
otherwise.  When the method field is already set the C code passes a NULL
pointer to strstr, which is undefined; that branch is modelled as `none`
and is never reached by the code paths modelled here. -/
def http_get_method (buf : List Char) (msg : Message) : Message × Option Nat :=
  match msg.method with
  | none =>
    match scanMethods buf http_methods 0 with
    | none => (msg, none)
    | some (i, p) =>
      ({ msg with method := some i }, (strstr [' '] (buf.drop p)).map (p + ·))
  | some _ => (msg, none)

/-- http_contains_valid_message: the completeness check over the buffer
accumulated so far.  Each search resumes at the start of the previous
match, exactly as in the C code. -/
def http_contains_valid_message (buf : List Char) : Bool :=
  match http_get_method buf (http_init_struct_message emptyMessage) with
  | (_, none) => false
  | (_, some c1) =>
    match strstr HTTP_MARKER (buf.drop c1) with
    | none => false
    | some r =>
      match strstr HOST_FIELD (buf.drop (c1 + r)) with
      | none => false
      | some s =>
        match strstr LINE_END (buf.drop (c1 + r + s)) with
        | none => false
        | some _ => true

/-- http_get_resource, with `cur` the index handed over by http_get_method:
find the first slash at or after `cur`, then scan forward from the
following character for a space.  The C scan `while (*++end != ' ')` does
not stop at the terminator, so a buffer with no space after the slash runs
past the allocation; both that overrun and a NULL start pointer are
modelled as `none`. -/
def http_get_resource (buf : List Char) (cur : Nat) : Option (List Char × Nat) :=
  match strstr ['/'] (buf.drop cur) with
  | none => none
  | some s0 =>
    match strstr [' '] (buf.drop (cur + s0 + 1)) with
    | none => none
    | some e0 =>
      some ((buf.drop (cur + s0)).take (e0 + 1), cur + s0 + 1 + e0)

/-- http_get_host, with `cur` the index returned by http_get_resource:
find "Host: " at or after `cur`, the space inside it, then the line end
that terminates the value.  A failed strstr makes the C code dereference
NULL (strchr(NULL, .) or a length computed from NULL), modelled as `none`. -/
def http_get_host (buf : List Char) (cur : Nat) : Option (List Char × Nat) :=
  match strstr HOST_FIELD (buf.drop cur) with
  | none => none
  | some h0 =>
    match strstr [' '] (buf.drop (cur + h0)) with
    | none => none
    | some sp0 =>
      match strstr LINE_END (buf.drop (cur + h0 + sp0 + 1)) with
      | none => none
      | some e0 =>
        some ((buf.drop (cur + h0 + sp0 + 1)).take e0, cur + h0 + sp0 + 1 + e0 + 2)

/-- http_extract_message: method, then resource, then host, threading the
cursor returned by each step; the result is the filled message and the
index just past the consumed part.  A NULL intermediate cursor makes the C
code crash inside the next helper; that is modelled as `none`. -/
def http_extract_message (buf : List Char) (msg : Message) : Option (Message × Nat) :=
  match http_get_method buf msg with
  | (_, none) => none
  | (msg1, some c1) =>
    match http_get_resource buf c1 with
    | none => none
    | some (res, e1) =>
      match http_get_host buf e1 with
      | none => none
      | some (host, e2) =>
        some ({ msg1 with resource := some res, header := some host }, e2)

/-- Parsing as performed by connection_worker: extraction into a freshly
initialized message. -/
def parseMessage (buf : List Char) : Option (Message × Nat) :=
  http_extract_message buf (http_init_struct_message emptyMessage)

/-- The method recorded by http_get_method on a fresh message: the index in
enum order of the first table entry that occurs somewhere in the buffer. -/
def methodOf (buf : List Char) : Option Nat :=
  ((http_get_method buf (http_init_struct_message emptyMessage)).1).method

/-- `needle` occurs somewhere in `hay`. -/
def occursIn (needle hay : List Char) : Prop := ∃ i, occursAt needle hay i

instance (needle hay : List Char) : Decidable (occursIn needle hay) := by
  unfold occursIn occursAt
  exact decidable_of_iff (∃ i < hay.length + 1, needle <+: hay.drop i)
    ⟨fun ⟨i, _, h⟩ => ⟨i, h⟩, fun ⟨i, h⟩ =>
      ⟨min i hay.length, by omega,
        by rcases Nat.le_total i hay.length with hle | hle
           · simpa [Nat.min_eq_left hle] using h
           · have e1 : hay.drop i = [] := List.drop_eq_nil_of_le hle
             have e2 : hay.drop (min i hay.length) = [] :=
               List.drop_eq_nil_of_le (by omega)
             rw [e2, ← e1]; exact h⟩⟩

/-- count_digits: (size_t)floor(log10(i) + 1), the number of decimal digits
of i.  Matches the C value for every i that is at least 1; for i = 0 the C
expression floor(log10(0) + 1) is undefined. -/
def count_digits (n : Nat) : Nat := Nat.log 10 n + 1

/-- One decimal digit character, as printed by the %lu conversion. -/
def digitChar (d : Nat) : Char := Char.ofNat (48 + d % 10)

/-- Fuelled most-significant-first decimal printer. -/
def toDigitsAux : Nat → Nat → List Char
  | 0, _ => []
  | _ + 1, 0 => []
  | fuel + 1, n + 1 => toDigitsAux fuel ((n + 1) / 10) ++ [digitChar ((n + 1) % 10)]

/-- The decimal representation printed by snprintf %lu. -/
def natToDigits (n : Nat) : List Char :=
  if n = 0 then ['0'] else toDigitsAux n n

/-- http_prepare_response.  The file system is modelled as a partial map
from the resource path to the file bytes; `none` means open fails.  When
the request carries no resource the C code formats a NULL pointer into the
path, which is undefined and modelled as `none`.  The 404 branch sets only
status and header; the 200 branch sets status, body, body_len and the
Content-Length header.  All other response fields keep the values they had
on entry.  For a zero-length file the 200 branch sizes the header with
count_digits(0) = (size_t)floor(log10(0) + 1), which is undefined; that
case is therefore also modelled as `none`. -/
def http_prepare_response (fs : List Char → Option (List Char))
    (message response : Message) : Option Message :=
  match message.resource with
  | none => none
  | some r =>
    match fs r with
    | none =>
      some { response with
              status := some STATUS_ERROR,
              header := some (CLOSE_CONNECTION ++ LINE_END) }
    | some content =>
      if content.length = 0 then none
      else
        some { response with
                status := some STATUS_OK,
                body_len := content.length,
                body := some content,
                header := some (CONTENT_LENGTH ++ natToDigits content.length ++ LINE_END) }

/-- http_format_response: status line, line end, header, line end, and in
the non-404 case the body (read with strlen, hence cut at the first NUL)
and a final line end.  The C code dereferences status, header and (in the
non-404 case) body without null checks; a missing field is modelled as
`none`. -/
def http_format_response (rsp : Message) : Option (List Char) :=
  match rsp.status, rsp.header with
  | some st, some hd =>
    if STATUS_ERROR <+: st then
      some (st ++ LINE_END ++ hd ++ LINE_END)
    else
      match rsp.body with
      | some b => some (st ++ LINE_END ++ hd ++ LINE_END ++ cString b ++ LINE_END)
      | none => none
  | _, _ => none

/-- Result of one sendall invocation: the reported return value (`none`
when the C code returns the uninitialized variable n, which happens exactly
when the loop body never ran), the total number of bytes handed to send,
and the trace of (offset, requested length) pairs passed to send. -/
structure SendResult where
  ok : Option Bool
  total : Nat
  calls : List (Nat × Nat)
deriving DecidableEq

/-- The sendall loop.  The oracle lists the outcome of each successive
send call: `none` is a send error (-1), `some k` means the primitive
accepted k bytes (clamped to the requested length, as a real send never
accepts more than asked).  An exhausted oracle while bytes remain models a
send that blocks forever, so no result is returned. -/
def sendallGo (len : Nat) : List (Option Nat) → Nat → Option (Option Nat) →
    List (Nat × Nat) → Option SendResult
  | [], total, last, tr =>
    if len ≤ total then some ⟨last.map Option.isSome, total, tr⟩ else none
  | o :: rest, total, last, tr =>
    if len ≤ total then some ⟨last.map Option.isSome, total, tr⟩
    else
      match o with
      | none => some ⟨some false, total, tr ++ [(total, len - total)]⟩
      | some k =>
        sendallGo len rest (total + min k (len - total)) (some (some (min k (len - total))))
          (tr ++ [(total, len - total)])

/-- sendall on a buffer of known length. -/
def sendall (len : Nat) (oracle : List (Option Nat)) : Option SendResult :=
  sendallGo len oracle 0 none []

/-- The allocation size requested by connection_worker on the iteration
after `count` completed receives: realloc(buf, 2 * len) with
len = (count + 1) * chunk + 1. -/
def reallocLen (count chunk : Nat) : Nat := 2 * ((count + 1) * chunk + 1)

/-- The receive slot offset used by connection_worker: head plus
count * chunk, independent of how many bytes earlier receives returned. -/
def slotOffset (headOff count chunk : Nat) : Nat := headOff + count * chunk

/-- The contents a receive leaves in its chunk-sized slot: the received
bytes followed by the NUL bytes the preceding memset put there. -/
def padChunk (chunk : Nat) (c : List Char) : List Char :=
  c ++ List.replicate (chunk - c.length) nul

/-- Buffer contents (from the head pointer) after the listed receives,
each writing at its fixed slot offset. -/
def bufferAfter (chunk : Nat) (cs : List (List Char)) : List Char :=
  (cs.map (padChunk chunk)).flatten

/-- The receive loop of connection_worker for a single message with the
head at the buffer start: each successful receive deposits its bytes at
the next chunk-aligned slot, then the completeness check runs on the
buffer read as a C string.  The chunk list holds the successful receives;
exhausting it corresponds to the peer closing (recv returning 0), after
which no message is produced. -/
def recvLoopGo (chunk : Nat) : List (List Char) → List Char → Option (List Char)
  | [], _ => none
  | c :: rest, buf =>
    if http_contains_valid_message (cString (buf ++ padChunk chunk c)) then
      some (cString (buf ++ padChunk chunk c))
    else recvLoopGo chunk rest (buf ++ padChunk chunk c)

/-- Reassembly of one message by connection_worker from the given receives. -/
def connection_receive (chunk : Nat) (chunks : List (List Char)) : Option (List Char) :=
  recvLoopGo chunk chunks []

/-- The response phase of connection_worker for one parsed request:
prepare the response into a freshly initialized message whose body_len
holds the leftover stack value g, format it, and transmit the formatted
bytes (sendall with strlen, hence the C-string view) followed by the
second sendall of body_len bytes from the body pointer.  With a NULL body
that second call hands send a NULL buffer and delivers nothing. -/
def worker_respond (fs : List Char → Option (List Char)) (g : Nat) (msg : Message) :
    Option (List Char) :=
  (http_prepare_response fs msg (http_init_struct_message { emptyMessage with body_len := g })).bind
    fun rsp =>
      (http_format_response rsp).map fun fmt =>
        cString fmt ++
          (match rsp.body with
           | some b => b.take rsp.body_len
           | none => [])

/-- Worker state across outer loop iterations: the whole buffer (from its
original start), the head offset, and the number of receives performed. -/
structure WState where
  buf : List Char
  headOff : Nat
  count : Nat

/-- Overwrite `data` into `buf` at offset `off`; bytes the allocation has
never seen are modelled as NUL. -/
def storeAt (buf : List Char) (off : Nat) (data : List Char) : List Char :=
  buf.take off ++ List.replicate (off - buf.length) nul ++ data ++ buf.drop (off + data.length)

/-- The inner receive loop of connection_worker in full generality:
receive into the slot at head + count * chunk (after the memset of
chunk + 1 bytes), then test the completeness of the C string starting at
head.  Returns the state after the check succeeds together with the
unconsumed receives; `none` means the script ran out, i.e. the peer
closed. -/
def innerRecv (chunk : Nat) : WState → List (List Char) →
    Option (WState × List (List Char))
  | _, [] => none
  | st, c :: rest =>
    match
      ({ buf := storeAt st.buf (slotOffset st.headOff st.count chunk)
                  (c ++ List.replicate (chunk + 1 - c.length) nul),
         headOff := st.headOff, count := st.count + 1 } : WState)
    with
    | st2 =>
      if http_contains_valid_message (cString (st2.buf.drop st2.headOff)) then
        some (st2, rest)
      else innerRecv chunk st2 rest

/-- The outer loop of connection_worker: receive until complete, parse
from head, advance head past the consumed message, respond, and repeat
until the peer closes.  Returns the transmissions sent and the number of
successful receives consumed.  A parse failure models the C crash and
stops the run; fuel bounds the number of outer iterations. -/
def workerRun (fs : List Char → Option (List Char)) (chunk g : Nat) :
    Nat → WState → List (List Char) → List (List Char) × Nat
  | 0, _, _ => ([], 0)
  | fuel + 1, st, script =>
    match innerRecv chunk st script with
    | none => ([], script.length)
    | some (st2, rest) =>
      match parseMessage (cString (st2.buf.drop st2.headOff)) with
      | none => ([], script.length - rest.length)
      | some (msg, cur) =>
        match worker_respond fs g msg with
        | none => ([], script.length - rest.length)
        | some t =>
          match workerRun fs chunk g fuel { st2 with headOff := st2.headOff + cur } rest with
          | (ts, n) => (t :: ts, (script.length - rest.length) + n)

/-! ## Helper lemmas -/

theorem strstr_occursAt {needle hay : List Char} {i : Nat} :
    strstr needle hay = some i → occursAt needle hay i := by
  induction hay generalizing i with
  | nil =>
    intro h
    unfold strstr at h
    split at h
    · cases h; assumption
    · cases h
  | cons c t ih =>
    intro h
    unfold strstr at h
    split at h
    · cases h; simpa [occursAt] using ‹needle <+: c :: t›
    · rcases Option.map_eq_some'.mp h with ⟨j, hj, rfl⟩
      have := ih hj
      simpa [occursAt] using this

theorem occursAt_of_drop {needle hay : List Char} {c i : Nat} :
    occursAt needle (hay.drop c) i → occursAt needle hay (c + i) := by
  intro h
  unfold occursAt at h ⊢
  rwa [List.drop_drop] at h

theorem strstr_isSome_of_occursAt {needle hay : List Char} {i : Nat} :
    occursAt needle hay i → (strstr needle hay).isSome := by
  induction hay generalizing i with
  | nil =>
    intro h
    unfold occursAt at h
    simp only [List.drop_nil] at h
    unfold strstr
    rw [if_pos h]
    rfl
  | cons c t ih =>
    intro h
    unfold strstr
    split
    · rfl
    · cases i with
      | zero =>
        unfold occursAt at h
        simp only [List.drop_zero] at h
        exact absurd h ‹¬needle <+: c :: t›
      | succ j =>
        unfold occursAt at h
        simp only [List.drop_succ_cons] at h
        have : (strstr needle t).isSome := ih h
        rcases Option.isSome_iff_exists.mp this with ⟨k, hk⟩
        rw [hk]
        rfl

theorem strstr_eq_none_iff {needle hay : List Char} :
    strstr needle hay = none ↔ ¬ occursIn needle hay := by
  constructor
  · intro h ⟨i, hi⟩
    have := strstr_isSome_of_occursAt hi
    rw [h] at this
    cases this
  · intro h
    cases hs : strstr needle hay with
    | none => rfl
    | some i => exact absurd ⟨i, strstr_occursAt hs⟩ h

theorem cString_eq_self {l : List Char} (h : nul ∉ l) : cString l = l := by
  induction l with
  | nil => rfl
  | cons a t ih =>
    have ha : a ≠ nul := fun e => h (e ▸ List.mem_cons_self a t)
    have ht : nul ∉ t := fun e => h (List.mem_cons_of_mem a e)
    simp [cString, List.takeWhile_cons, bne_iff_ne, ha]
    simpa [cString] using ih ht

theorem cString_append_replicate {l : List Char} (h : nul ∉ l) (k : Nat) :
    cString (l ++ List.replicate k nul) = l := by
  induction l with
  | nil =>
    cases k with
    | zero => rfl
    | succ m => simp [cString, List.replicate_succ, List.takeWhile_cons]
  | cons a t ih =>
    have ha : a ≠ nul := fun e => h (e ▸ List.mem_cons_self a t)
    have ht : nul ∉ t := fun e => h (List.mem_cons_of_mem a e)
    simp only [List.cons_append, cString, List.takeWhile_cons, bne_iff_ne]
    rw [if_pos (by simpa using ha)]
    have := ih ht
    simp only [cString] at this
    rw [this]

theorem scanMethods_mem {buf : List Char} :
    ∀ {ms : List (List Char)} {i0 i p : Nat}, scanMethods buf ms i0 = some (i, p) →
      ∃ m ∈ ms, strstr m buf = some p := by
  intro ms
  induction ms with
  | nil => intro i0 i p h; cases h
  | cons m rest ih =>
    intro i0 i p h
    unfold scanMethods at h
    split at h
    · cases h
      exact ⟨m, List.mem_cons_self m rest, by assumption⟩
    · rcases ih h with ⟨m', hm', hs⟩
      exact ⟨m', List.mem_cons_of_mem m hm', hs⟩

theorem scanMethods_some_iff {buf : List Char} :
    ∀ {ms : List (List Char)} {i0 i p : Nat},
      scanMethods buf ms i0 = some (i, p) ↔
        ∃ k, k < ms.length ∧ i = i0 + k ∧ strstr (ms.getD k []) buf = some p ∧
          ∀ j < k, strstr (ms.getD j []) buf = none := by
  intro ms
  induction ms with
  | nil =>
    intro i0 i p
    constructor
    · intro h; cases h
    · intro ⟨k, hk, _⟩; cases hk
  | cons m rest ih =>
    intro i0 i p
    constructor
    · intro h
      unfold scanMethods at h
      cases hs : strstr m buf with
      | some q =>
        rw [hs] at h
        cases h
        exact ⟨0, by simp, by omega, by simpa using hs, by omega⟩
      | none =>
        rw [hs] at h
        rcases (ih.mp h) with ⟨k, hk, hi, hget, hprev⟩
        refine ⟨k + 1, by simpa using hk, by omega, by simpa using hget, ?_⟩
        intro j hj
        cases j with
        | zero => simpa using hs
        | succ j' => simpa using hprev j' (by omega)
    · intro ⟨k, hk, hi, hget, hprev⟩
      unfold scanMethods
      cases k with
      | zero =>
        simp only [List.getD_cons_zero] at hget
        rw [hget]
        simp [hi]
      | succ k' =>
        have h0 : strstr m buf = none := by simpa using hprev 0 (by omega)
        rw [h0]
        apply ih.mpr
        refine ⟨k', by simpa using hk, by omega, by simpa using hget, ?_⟩
        intro j hj
        simpa using hprev (j + 1) (by omega)

theorem toDigitsAux_zero : ∀ fuel, toDigitsAux fuel 0 = [] := by
  intro fuel
  cases fuel <;> rfl

theorem digitChar_ne_nul (d : Nat) : digitChar d ≠ nul := by
  have h : d % 10 < 10 := Nat.mod_lt _ (by omega)
  unfold digitChar
  revert h
  generalize d % 10 = r
  intro h
  interval_cases r <;> decide

theorem nul_not_mem_toDigitsAux : ∀ fuel n, nul ∉ toDigitsAux fuel n := by
  intro fuel
  induction fuel with
  | zero => intro n; simp [toDigitsAux]
  | succ f ih =>
    intro n
    cases n with
    | zero => simp [toDigitsAux]
    | succ m =>
      unfold toDigitsAux
      intro hmem
      rcases List.mem_append.mp hmem with h | h
      · exact ih _ h
      · have : nul = digitChar ((m + 1) % 10) := by simpa using h
        exact digitChar_ne_nul _ this.symm

theorem nul_not_mem_natToDigits (n : Nat) : nul ∉ natToDigits n := by
  unfold natToDigits
  split
  · decide
  · exact nul_not_mem_toDigitsAux n n

theorem toDigitsAux_length :
    ∀ fuel n, 0 < n → n ≤ fuel → (toDigitsAux fuel n).length = Nat.log 10 n + 1 := by
  intro fuel
  induction fuel with
  | zero => intro n h1 h2; omega
  | succ f ih =>
    intro n h1 h2
    cases n with
    | zero => omega
    | succ m =>
      unfold toDigitsAux
      rw [List.length_append]
      by_cases h10 : m + 1 < 10
      · have hdiv : (m + 1) / 10 = 0 := Nat.div_eq_of_lt h10
        rw [hdiv, toDigitsAux_zero]
        have : Nat.log 10 (m + 1) = 0 :=
          Nat.log_eq_zero_iff.mpr (Or.inl h10)
        simp [this]
      · have hge : 10 ≤ m + 1 := by omega
        have hpos : 0 < (m + 1) / 10 := Nat.div_pos hge (by omega)
        have hlt : (m + 1) / 10 < m + 1 := Nat.div_lt_self (by omega) (by omega)
        have hle : (m + 1) / 10 ≤ f := by omega
        rw [ih _ hpos hle]
        have hlog : Nat.log 10 ((m + 1) / 10) = Nat.log 10 (m + 1) - 1 :=
          Nat.log_div_base 10 (m + 1)
        have hlogpos : 0 < Nat.log 10 (m + 1) := Nat.log_pos (by omega) hge
        simp only [List.length_cons, List.length_nil]
        omega

theorem natToDigits_length {n : Nat} (h : 0 < n) :
    (natToDigits n).length = count_digits n := by
  unfold natToDigits count_digits
  rw [if_neg (by omega)]
  rw [toDigitsAux_length n n h (Nat.le_refl n)]

theorem padChunk_full {chunk : Nat} {c : List Char} (h : c.length = chunk) :
    padChunk chunk c = c := by
  unfold padChunk
  rw [h]
  simp

theorem recvLoopGo_reaches {chunk : Nat} {R : List Char} (hnul : nul ∉ R)
    (hT : http_contains_valid_message R = true)
    (hmin : ∀ k, k < R.length → http_contains_valid_message (R.take k) = false) :
    ∀ (chunks : List (List Char)) (acc : List Char),
      chunks ≠ [] →
      (∀ c ∈ chunks, c ≠ []) →
      (∀ c ∈ chunks.dropLast, c.length = chunk) →
      acc ++ chunks.flatten = R →
      recvLoopGo chunk chunks acc = some R := by
  intro chunks
  induction chunks with
  | nil => intro acc h; exact absurd rfl h
  | cons c rest ih =>
    intro acc _ hne hfull hacc
    cases rest with
    | nil =>
      have haccc : acc ++ c = R := by simpa using hacc
      have hach : nul ∉ acc ++ c := fun hm => hnul (haccc ▸ hm)
      unfold recvLoopGo
      unfold padChunk
      rw [← List.append_assoc, haccc]
      rw [cString_append_replicate hnul]
      rw [hT]
      simp
    | cons c2 rs =>
      have hcfull : c.length = chunk := by
        apply hfull
        show c ∈ (c :: c2 :: rs).dropLast
        rw [List.dropLast_cons₂]
        exact List.mem_cons_self _ _
      have hflat : acc ++ (c ++ (c2 :: rs).flatten) = R := by
        simpa [List.flatten_cons, List.append_assoc] using hacc
      have hprefRest : (acc ++ c) ++ (c2 :: rs).flatten = R := by
        simpa [List.append_assoc] using hflat
      have hsub : nul ∉ acc ++ c := by
        intro hm
        apply hnul
        rw [← hprefRest]
        exact List.mem_append.mpr (Or.inl hm)
      have hc2 : c2 ≠ [] := hne c2 (by simp)
      have hlenR : R.length = (acc ++ c).length + (c2 :: rs).flatten.length := by
        rw [← hprefRest, List.length_append]
      have hflatpos : 0 < (c2 :: rs).flatten.length := by
        rw [List.flatten_cons, List.length_append]
        have : 0 < c2.length := List.length_pos.mpr hc2
        omega
      have hlenlt : (acc ++ c).length < R.length := by omega
      have htake : R.take ((acc ++ c).length) = acc ++ c := by
        rw [← hprefRest]
        exact List.take_left _ _
      unfold recvLoopGo
      rw [padChunk_full hcfull]
      rw [cString_eq_self hsub]
      have hfalse : http_contains_valid_message (acc ++ c) = false := by
        have := hmin ((acc ++ c).length) hlenlt
        rwa [htake] at this
      rw [hfalse]
      simp only [Bool.false_eq_true, if_false]
      apply ih
      · simp
      · intro x hx; exact hne x (List.mem_cons_of_mem c hx)
      · intro x hx
        apply hfull
        rw [List.dropLast_cons₂]
        exact List.mem_cons_of_mem c hx
      · exact hprefRest

theorem sendallGo_spec {len : Nat} :
    ∀ (oracle : List (Option Nat)) (total : Nat) (last : Option (Option Nat))
      (tr : List (Nat × Nat)) (res : SendResult),
      sendallGo len oracle total last tr = some res →
      total ≤ len →
      (last = none → total = 0) →
      (∀ x, last = some x → x ≠ none) →
      (∀ q ∈ tr, q.2 = len - q.1 ∧ q.1 < len) →
      res.total ≤ len ∧
      (res.ok = some true → res.total = len) ∧
      (res.ok = some false → res.total < len) ∧
      (res.ok = none → res.total = 0 ∧ len = 0) ∧
      (∀ q ∈ res.calls, q.2 = len - q.1 ∧ q.1 < len) := by
  intro oracle
  induction oracle with
  | nil =>
    intro total last tr res h htot hlast1 hlast2 htr
    unfold sendallGo at h
    by_cases hc : len ≤ total
    · rw [if_pos hc] at h
      injection h with h
      subst h
      dsimp only
      refine ⟨htot, fun _ => by omega, ?_, ?_, htr⟩
      · intro hok
        cases last with
        | none => simp at hok
        | some x =>
          cases x with
          | none => exact absurd rfl (hlast2 none rfl)
          | some k => simp at hok
      · intro hok
        cases last with
        | none =>
          have := hlast1 rfl
          omega
        | some x => simp at hok
    · rw [if_neg hc] at h
      cases h
  | cons o rest ih =>
    intro total last tr res h htot hlast1 hlast2 htr
    unfold sendallGo at h
    by_cases hc : len ≤ total
    · rw [if_pos hc] at h
      injection h with h
      subst h
      dsimp only
      refine ⟨htot, fun _ => by omega, ?_, ?_, htr⟩
      · intro hok
        cases last with
        | none => simp at hok
        | some x =>
          cases x with
          | none => exact absurd rfl (hlast2 none rfl)
          | some k => simp at hok
      · intro hok
        cases last with
        | none =>
          have := hlast1 rfl
          omega
        | some x => simp at hok
    · rw [if_neg hc] at h
      cases o with
      | none =>
        simp only at h
        injection h with h
        subst h
        dsimp only
        refine ⟨by omega, fun hok => by simp at hok, fun _ => by omega,
          fun hok => by simp at hok, ?_⟩
        intro q hq
        rcases List.mem_append.mp hq with hq | hq
        · exact htr q hq
        · simp only [List.mem_singleton] at hq
          subst hq
          exact ⟨rfl, by omega⟩
      | some k =>
        simp only at h
        refine ih _ _ _ _ h (by omega) (fun hcontra => by cases hcontra)
          (fun x hx => by injection hx with hx; subst hx; simp) ?_
        intro q hq
        rcases List.mem_append.mp hq with hq | hq
        · exact htr q hq
        · simp only [List.mem_singleton] at hq
          subst hq
          exact ⟨rfl, by omega⟩

theorem pred_chain_of_true {buf : List Char}
    (h : http_contains_valid_message buf = true) :
    ∃ m p r s t, m ∈ http_methods ∧ occursAt m buf p ∧
      occursAt HTTP_MARKER buf r ∧ p ≤ r ∧
      occursAt HOST_FIELD buf s ∧ r ≤ s ∧
      occursAt LINE_END buf t ∧ s ≤ t := by
  unfold http_contains_valid_message at h
  rcases hG : http_get_method buf (http_init_struct_message emptyMessage) with ⟨m1, copt⟩
  rw [hG] at h
  cases copt with
  | none => simp at h
  | some c1 =>
    dsimp only at h
    unfold http_get_method at hG
    dsimp only [http_init_struct_message, emptyMessage] at hG
    rcases hscan : scanMethods buf http_methods 0 with _ | ⟨i, p⟩
    · rw [hscan] at hG
      simp at hG
    · rw [hscan] at hG
      dsimp only at hG
      have hc1 : (strstr [' '] (buf.drop p)).map (p + ·) = some c1 :=
        congrArg Prod.snd hG
      rcases Option.map_eq_some'.mp hc1 with ⟨q, hq, hc1e⟩
      rcases scanMethods_mem hscan with ⟨mtok, hmem, hstr⟩
      rcases hr : strstr HTTP_MARKER (buf.drop c1) with _ | r
      · rw [hr] at h; simp at h
      · rw [hr] at h
        dsimp only at h
        rcases hs : strstr HOST_FIELD (buf.drop (c1 + r)) with _ | s
        · rw [hs] at h; simp at h
        · rw [hs] at h
          dsimp only at h
          rcases ht : strstr LINE_END (buf.drop (c1 + r + s)) with _ | t
          · rw [ht] at h; simp at h
          · refine ⟨mtok, p, c1 + r, c1 + r + s, c1 + r + s + t,
              hmem, strstr_occursAt hstr,
              occursAt_of_drop (strstr_occursAt hr), by omega,
              occursAt_of_drop (strstr_occursAt hs), by omega,
              occursAt_of_drop (strstr_occursAt ht), by omega⟩

theorem methodOf_eq (buf : List Char) :
    methodOf buf = (scanMethods buf http_methods 0).map (fun ip => ip.1) := by
  unfold methodOf http_get_method
  dsimp only [http_init_struct_message, emptyMessage]
  rcases hscan : scanMethods buf http_methods 0 with _ | ⟨i, p⟩ <;> simp [hscan]

/-! ## Claim theorems -/

/-- C2 counterexample: the buffer GET CRLF HTTP/1.1 CRLF Host: h CRLF contains,
in order, a recognized method token (at 0), the HTTP/1.1 marker with its line
terminator (at 5), a Host: field (at 15) and a line terminator after the Host
value (at 22), yet the completeness check returns false, because the scan
additionally demands a space at or after the method occurrence before it
searches for the marker.  So true is not returned exactly when the four
elements are present in order. -/
theorem C2_counterexample :
    (("GET".toList) ∈ http_methods ∧
      occursAt ("GET".toList) ("GET\r\nHTTP/1.1\r\nHost: h\r\n".toList) 0 ∧
      occursAt HTTP_MARKER ("GET\r\nHTTP/1.1\r\nHost: h\r\n".toList) 5 ∧
      occursAt HOST_FIELD ("GET\r\nHTTP/1.1\r\nHost: h\r\n".toList) 15 ∧
      occursAt LINE_END ("GET\r\nHTTP/1.1\r\nHost: h\r\n".toList) 22) ∧
    http_contains_valid_message ("GET\r\nHTTP/1.1\r\nHost: h\r\n".toList) = false := by
  decide

/-- C2 amended: whenever the completeness check returns true the buffer does
contain, in order, a recognized method token, the HTTP/1.1 marker followed by
a line terminator, a Host: field, and a line terminator at or after the Host
field (the converse does not hold: the scan also requires a space after the
method occurrence and resumes each search at the previous match).  Moreover
the check is true on the full minimal message
GET /index.html HTTP/1.1 CRLF Host: localhost CRLF and false on each of its
strict prefixes. -/
theorem C2_completeness_amended :
    (∀ buf : List Char, http_contains_valid_message buf = true →
      ∃ m p r s t, m ∈ http_methods ∧ occursAt m buf p ∧
        occursAt HTTP_MARKER buf r ∧ p ≤ r ∧
        occursAt HOST_FIELD buf s ∧ r ≤ s ∧
        occursAt LINE_END buf t ∧ s ≤ t) ∧
    http_contains_valid_message ("GET /index.html HTTP/1.1\r\nHost: localhost\r\n".toList)
      = true ∧
    (∀ k, k < ("GET /index.html HTTP/1.1\r\nHost: localhost\r\n".toList).length →
      http_contains_valid_message
        (("GET /index.html HTTP/1.1\r\nHost: localhost\r\n".toList).take k) = false) := by
  exact ⟨fun buf h => pred_chain_of_true h, by decide, by decide⟩

/-- C2 witness: the amended theorem applied to the concrete buffer
GET / HTTP/1.1 CRLF Host: a CRLF. -/
theorem C2_completeness_amended_witness :
    ∃ m p r s t, m ∈ http_methods ∧
      occursAt m ("GET / HTTP/1.1\r\nHost: a\r\n".toList) p ∧
      occursAt HTTP_MARKER ("GET / HTTP/1.1\r\nHost: a\r\n".toList) r ∧ p ≤ r ∧
      occursAt HOST_FIELD ("GET / HTTP/1.1\r\nHost: a\r\n".toList) s ∧ r ≤ s ∧
      occursAt LINE_END ("GET / HTTP/1.1\r\nHost: a\r\n".toList) t ∧ s ≤ t :=
  C2_completeness_amended.1 ("GET / HTTP/1.1\r\nHost: a\r\n".toList) (by decide)

/-- C3: the completeness check passes on
GET noslash HTTP/1.1 CRLF Host: x CRLF, yet extraction fails: the resource
scan latches onto the slash inside HTTP/1.1 and consumes through the Host
field, after which http_get_host finds no "Host: " and the C code passes the
NULL result of strstr to strchr.  So extraction is not total on buffers
accepted by the check; the failure is modelled by parseMessage returning
none. -/
theorem C3_extraction_crash :
    http_contains_valid_message ("GET noslash HTTP/1.1\r\nHost: x\r\n".toList) = true ∧
    parseMessage ("GET noslash HTTP/1.1\r\nHost: x\r\n".toList) = none := by
  decide

/-- C9: the extracted method is the first entry of the fixed table GET, HEAD,
POST, PUT, DELETE, CONNECT, OPTIONS, TRACE, PATCH, in table order, that
occurs as a literal substring anywhere in the buffer; and consequently the
buffer POST /GETdata ... is classified as GET because its resource contains
an earlier-in-table verb. -/
theorem C9_method_table_scan :
    (∀ (buf : List Char) (i : Nat),
      methodOf buf = some i ↔
        i < http_methods.length ∧ occursIn (http_methods.getD i []) buf ∧
          ∀ j < i, ¬ occursIn (http_methods.getD j []) buf) ∧
    methodOf ("POST /GETdata HTTP/1.1\r\nHost: h\r\n".toList) = some 0 := by
  constructor
  · intro buf i
    rw [methodOf_eq]
    constructor
    · intro h
      rcases hscan : scanMethods buf http_methods 0 with _ | ⟨i', p⟩
      · rw [hscan] at h; cases h
      · rw [hscan] at h
        simp only [Option.map_some'] at h
        injection h with h
        subst h
        rcases scanMethods_some_iff.mp hscan with ⟨k, hk, hik, hget, hprev⟩
        have hik' : i' = k := by omega
        subst hik'
        refine ⟨hk, ⟨p, strstr_occursAt hget⟩, ?_⟩
        intro j hj hocc
        exact (strstr_eq_none_iff.mp (hprev j hj)) hocc
    · intro ⟨hi, hocc, hprev⟩
      rcases hocc with ⟨p0, hp0⟩
      have hsome : (strstr (http_methods.getD i []) buf).isSome :=
        strstr_isSome_of_occursAt hp0
      rcases Option.isSome_iff_exists.mp hsome with ⟨p, hp⟩
      have hscan : scanMethods buf http_methods 0 = some (i, p) := by
        apply scanMethods_some_iff.mpr
        refine ⟨i, hi, by omega, hp, ?_⟩
        intro j hj
        exact strstr_eq_none_iff.mpr (hprev j hj)
      rw [hscan]
      rfl
  · decide

/-- C9 witness: the characterization applied to the POST /GETdata buffer at
index 0 shows the GET entry occurs and no earlier entry does. -/
theorem C9_method_table_scan_witness :
    0 < http_methods.length ∧
      occursIn (http_methods.getD 0 []) ("POST /GETdata HTTP/1.1\r\nHost: h\r\n".toList) ∧
      ∀ j < 0, ¬ occursIn (http_methods.getD j [])
        ("POST /GETdata HTTP/1.1\r\nHost: h\r\n".toList) :=
  (C9_method_table_scan.1 ("POST /GETdata HTTP/1.1\r\nHost: h\r\n".toList) 0).mp
    C9_method_table_scan.2

/-- C1 counterexample: the minimal request GET / HTTP/1.1 CRLF Host: a CRLF,
split with a 2-byte first receive under chunk size 4 (every receive at most
chunk-size bytes, concatenation equal to the request), is never reassembled:
the worker writes each receive at a fixed chunk-aligned slot, so the short
first receive leaves NUL bytes in the middle of the buffer, the C-string
view ends at them, and the completeness check never passes.  The single-shot
delivery of the same bytes parses fine, so the final parsed message is not
identical to the single-shot case. -/
theorem C1_counterexample :
    (∀ c ∈ [['G','E'], "T / ".toList, "HTTP".toList, "/1.1".toList,
        "\r\nHo".toList, "st: ".toList, "a\r\n".toList], c.length ≤ 4) ∧
    ([['G','E'], "T / ".toList, "HTTP".toList, "/1.1".toList,
        "\r\nHo".toList, "st: ".toList, "a\r\n".toList].flatten
      = "GET / HTTP/1.1\r\nHost: a\r\n".toList) ∧
    http_contains_valid_message ("GET / HTTP/1.1\r\nHost: a\r\n".toList) = true ∧
    (connection_receive 4 [['G','E'], "T / ".toList, "HTTP".toList, "/1.1".toList,
        "\r\nHo".toList, "st: ".toList, "a\r\n".toList]).bind (fun b => parseMessage b)
      = none ∧
    (connection_receive ("GET / HTTP/1.1\r\nHost: a\r\n".toList).length
        ["GET / HTTP/1.1\r\nHost: a\r\n".toList]).bind (fun b => parseMessage b) ≠ none := by
  decide

/-- C1 amended: for a minimal request (one on which the completeness check
passes but fails on every strict prefix, and which carries no NUL byte),
reassembly does yield the same final buffer and hence the same parsed
message as the single-shot case, provided the receives fall on chunk
boundaries: every receive except possibly the last returns exactly
chunk-size bytes.  With shorter intermediate receives the fixed slot layout
leaves gaps, as the counterexample shows. -/
theorem C1_reassembly_amended :
    ∀ (chunk : Nat) (chunks : List (List Char)) (R : List Char),
      chunks ≠ [] →
      (∀ c ∈ chunks, c ≠ [] ∧ c.length ≤ chunk) →
      (∀ c ∈ chunks.dropLast, c.length = chunk) →
      chunks.flatten = R →
      nul ∉ R →
      http_contains_valid_message R = true →
      (∀ k, k < R.length → http_contains_valid_message (R.take k) = false) →
      connection_receive chunk chunks = some R ∧
      connection_receive R.length [R] = some R ∧
      (connection_receive chunk chunks).bind (fun b => parseMessage b) = parseMessage R := by
  intro chunk chunks R hne hbound hfull hflat hnul hT hmin
  have h1 : connection_receive chunk chunks = some R := by
    unfold connection_receive
    exact recvLoopGo_reaches hnul hT hmin chunks [] hne
      (fun c hc => (hbound c hc).1) hfull (by simpa using hflat)
  have hRne : R ≠ [] := by
    intro he
    rw [he] at hT
    have hfalse : http_contains_valid_message ([] : List Char) = false := by decide
    rw [hfalse] at hT
    cases hT
  have h2 : connection_receive R.length [R] = some R := by
    unfold connection_receive
    refine @recvLoopGo_reaches R.length R hnul hT hmin [R] [] (by simp) ?_ (by simp)
      (by simp)
    intro c hc
    simp only [List.mem_singleton] at hc
    subst hc
    exact hRne
  refine ⟨h1, h2, ?_⟩
  rw [h1, Option.some_bind]

/-- C1 witness: the amended theorem applied to the request
GET / HTTP/1.1 CRLF Host: a CRLF split at chunk boundaries of size 4. -/
theorem C1_reassembly_amended_witness :
    connection_receive 4 ["GET ".toList, "/ HT".toList, "TP/1".toList, ".1\r\n".toList,
        "Host".toList, ": a\r".toList, "\n".toList]
      = some ("GET / HTTP/1.1\r\nHost: a\r\n".toList) ∧
    connection_receive ("GET / HTTP/1.1\r\nHost: a\r\n".toList).length
        ["GET / HTTP/1.1\r\nHost: a\r\n".toList]
      = some ("GET / HTTP/1.1\r\nHost: a\r\n".toList) ∧
    (connection_receive 4 ["GET ".toList, "/ HT".toList, "TP/1".toList, ".1\r\n".toList,
        "Host".toList, ": a\r".toList, "\n".toList]).bind (fun b => parseMessage b)
      = parseMessage ("GET / HTTP/1.1\r\nHost: a\r\n".toList) :=
  C1_reassembly_amended 4
    ["GET ".toList, "/ HT".toList, "TP/1".toList, ".1\r\n".toList,
      "Host".toList, ": a\r".toList, "\n".toList]
    ("GET / HTTP/1.1\r\nHost: a\r\n".toList)
    (by decide) (by decide) (by decide) (by decide) (by decide) (by decide) (by decide)

/-- C4 counterexample: on the first iteration with chunk size 4 the worker
reallocates to 2 * ((0 + 1) * 4 + 1) = 10 bytes, not to the claimed
(0 + 1) * 4 + 1 = 5 bytes. -/
theorem C4_counterexample :
    reallocLen 0 4 = 10 ∧ reallocLen 0 4 ≠ (0 + 1) * 4 + 1 := by decide

/-- C4 amended: each receive iteration reallocates to twice the claimed
figure, 2 * ((iterations_done + 1) * chunk_size + 1); the receive slot sits
at offset head + iterations_done * chunk_size, and the slot region
(chunk_size + 1 bytes for the memset) always fits inside that allocation as
long as the head lies within the previously received region; appending a
receive leaves all previously deposited bytes intact; and the deposited
bytes are contiguous (the buffer is exactly the concatenation of the
receives) exactly in the case that every receive returned full chunk-size
length. -/
theorem C4_growth_amended :
    (∀ count chunk : Nat, reallocLen count chunk = 2 * ((count + 1) * chunk + 1)) ∧
    (∀ headOff count chunk : Nat, headOff ≤ count * chunk →
      slotOffset headOff count chunk + (chunk + 1) ≤ reallocLen count chunk) ∧
    (∀ (chunk : Nat) (cs : List (List Char)) (c : List Char),
      bufferAfter chunk (cs ++ [c]) = bufferAfter chunk cs ++ padChunk chunk c) ∧
    (∀ (chunk : Nat) (cs : List (List Char)),
      (∀ c ∈ cs, c.length = chunk) → bufferAfter chunk cs = cs.flatten) := by
  refine ⟨fun count chunk => rfl, ?_, ?_, ?_⟩
  · intro headOff count chunk h
    unfold slotOffset reallocLen
    have he : (count + 1) * chunk = count * chunk + chunk := by ring
    rw [he]
    omega
  · intro chunk cs c
    unfold bufferAfter
    rw [List.map_append, List.flatten_append]
    simp
  · intro chunk cs hfull
    induction cs with
    | nil => rfl
    | cons c rest ih =>
      unfold bufferAfter
      rw [List.map_cons, List.flatten_cons, padChunk_full (hfull c (by simp))]
      have := ih (fun x hx => hfull x (List.mem_cons_of_mem c hx))
      unfold bufferAfter at this
      rw [this, List.flatten_cons]

/-- C4 witness: the slot-fit bound applied at head offset 2 after 1 receive
with chunk size 4, and contiguity applied to two full 4-byte receives. -/
theorem C4_growth_amended_witness :
    (2 ≤ 1 * 4 ∧ slotOffset 2 1 4 + (4 + 1) ≤ reallocLen 1 4) ∧
    bufferAfter 4 ["GET ".toList, "/ HT".toList] = ["GET ".toList, "/ HT".toList].flatten :=
  ⟨⟨by decide, C4_growth_amended.2.1 2 1 4 (by decide)⟩,
    C4_growth_amended.2.2.2 4 ["GET ".toList, "/ HT".toList] (by decide)⟩

theorem prepare_success {fs : List Char → Option (List Char)} {msg rsp0 : Message}
    {r content : List Char} (hres : msg.resource = some r) (hfs : fs r = some content)
    (hpos : 0 < content.length) :
    http_prepare_response fs msg rsp0 =
      some { rsp0 with
              status := some STATUS_OK,
              body_len := content.length,
              body := some content,
              header := some (CONTENT_LENGTH ++ natToDigits content.length ++ LINE_END) } := by
  unfold http_prepare_response
  rw [hres]
  dsimp only
  rw [hfs]
  dsimp only
  rw [if_neg (by omega)]

theorem prepare_notfound {fs : List Char → Option (List Char)} {msg rsp0 : Message}
    {r : List Char} (hres : msg.resource = some r) (hfs : fs r = none) :
    http_prepare_response fs msg rsp0 =
      some { rsp0 with
              status := some STATUS_ERROR,
              header := some (CLOSE_CONNECTION ++ LINE_END) } := by
  unfold http_prepare_response
  rw [hres]
  dsimp only
  rw [hfs]

theorem format_success {rsp : Message} {hd b : List Char}
    (hst : rsp.status = some STATUS_OK) (hhd : rsp.header = some hd)
    (hb : rsp.body = some b) :
    http_format_response rsp =
      some (STATUS_OK ++ LINE_END ++ hd ++ LINE_END ++ cString b ++ LINE_END) := by
  unfold http_format_response
  rw [hst, hhd, hb]
  dsimp only
  rw [if_neg (by decide : ¬ STATUS_ERROR <+: STATUS_OK)]

theorem format_notfound {rsp : Message} {hd : List Char}
    (hst : rsp.status = some STATUS_ERROR) (hhd : rsp.header = some hd) :
    http_format_response rsp = some (STATUS_ERROR ++ LINE_END ++ hd ++ LINE_END) := by
  unfold http_format_response
  rw [hst, hhd]
  dsimp only
  rw [if_pos (List.prefix_refl STATUS_ERROR)]

/-- C5 counterexample: for the request GET /index.html HTTP/1.1 CRLF
Host: localhost CRLF CRLF with index.html holding the two bytes hi, the
worker does send the claimed bytes HTTP/1.1 200 OK CRLF Content-Length: 2
CRLF CRLF hi CRLF, but then its second sendall transmits the body again, so
the bytes put on the wire are the claimed ones followed by hi - not exactly
the claimed ones and nothing else. -/
theorem C5_counterexample :
    ((parseMessage ("GET /index.html HTTP/1.1\r\nHost: localhost\r\n\r\n".toList)).map
        (fun p => worker_respond
          (fun r => if r = ("/index.html".toList) then some ("hi".toList) else none) 0 p.1))
      = some (some (("HTTP/1.1 200 OK\r\nContent-Length: 2\r\n\r\nhi\r\n".toList)
          ++ "hi".toList)) ∧
    ("HTTP/1.1 200 OK\r\nContent-Length: 2\r\n\r\nhi\r\n".toList) ++ "hi".toList ≠
      "HTTP/1.1 200 OK\r\nContent-Length: 2\r\n\r\nhi\r\n".toList := by
  decide

/-- C5 amended: the formatted response consists exactly of status line, line
end, header line (which carries its own line end), line end, and in the
success case the NUL-free body (of at least one byte, since a zero-length
file makes the count_digits header sizing undefined) and a line end - but
the worker then sends body_len bytes of the body a second time, so the
transmission in the success case is the claimed wire shape followed by one
more copy of the body, and in the not-found case exactly the claimed shape
(the second sendall is handed a NULL body and delivers nothing). -/
theorem C5_wire_amended :
    (∀ (fs : List Char → Option (List Char)) (msg : Message) (r content : List Char)
      (g : Nat),
      msg.resource = some r → fs r = some content → 0 < content.length → nul ∉ content →
      worker_respond fs g msg =
        some (STATUS_OK ++ LINE_END ++ (CONTENT_LENGTH ++ natToDigits content.length
          ++ LINE_END) ++ LINE_END ++ content ++ LINE_END ++ content)) ∧
    (∀ (fs : List Char → Option (List Char)) (msg : Message) (r : List Char) (g : Nat),
      msg.resource = some r → fs r = none →
      worker_respond fs g msg =
        some (STATUS_ERROR ++ LINE_END ++ (CLOSE_CONNECTION ++ LINE_END) ++ LINE_END)) := by
  constructor
  · intro fs msg r content g hres hfs hpos hnulc
    unfold worker_respond
    rw [prepare_success hres hfs hpos]
    simp only [Option.some_bind]
    rw [format_success rfl rfl rfl]
    simp only [Option.map_some']
    rw [cString_eq_self hnulc]
    have h1 : nul ∉ STATUS_OK := by decide
    have h2 : nul ∉ LINE_END := by decide
    have h3 : nul ∉ CONTENT_LENGTH := by decide
    have hfmt : nul ∉ STATUS_OK ++ LINE_END
        ++ (CONTENT_LENGTH ++ natToDigits content.length ++ LINE_END)
        ++ LINE_END ++ content ++ LINE_END :=
      List.not_mem_append
        (List.not_mem_append
          (List.not_mem_append
            (List.not_mem_append (List.not_mem_append h1 h2)
              (List.not_mem_append (List.not_mem_append h3 (nul_not_mem_natToDigits _)) h2))
            h2)
          hnulc)
        h2
    rw [cString_eq_self hfmt, List.take_length]
  · intro fs msg r g hres hfs
    unfold worker_respond
    rw [prepare_notfound hres hfs]
    simp only [Option.some_bind]
    rw [format_notfound rfl rfl]
    simp only [Option.map_some']
    have h1 : nul ∉ STATUS_ERROR := by decide
    have h2 : nul ∉ LINE_END := by decide
    have h4 : nul ∉ CLOSE_CONNECTION := by decide
    have hfmt : nul ∉ STATUS_ERROR ++ LINE_END ++ (CLOSE_CONNECTION ++ LINE_END)
        ++ LINE_END :=
      List.not_mem_append
        (List.not_mem_append (List.not_mem_append h1 h2) (List.not_mem_append h4 h2)) h2
    rw [cString_eq_self hfmt]
    rfl

/-- C5 witness: the amended theorem applied to a file system holding hi at
/index.html, for the success shape, and to an empty file system for the 404
shape. -/
theorem C5_wire_amended_witness :
    worker_respond (fun r => if r = ("/index.html".toList) then some ("hi".toList) else none)
        0 { emptyMessage with resource := some ("/index.html".toList) } =
      some (STATUS_OK ++ LINE_END ++ (CONTENT_LENGTH ++ natToDigits ("hi".toList).length
        ++ LINE_END) ++ LINE_END ++ "hi".toList ++ LINE_END ++ "hi".toList) ∧
    worker_respond (fun _ => none) 0 { emptyMessage with resource := some ("/a".toList) } =
      some (STATUS_ERROR ++ LINE_END ++ (CLOSE_CONNECTION ++ LINE_END) ++ LINE_END) :=
  ⟨C5_wire_amended.1 _ _ ("/index.html".toList) ("hi".toList) 0 rfl (by decide) (by decide)
      (by decide),
    C5_wire_amended.2 _ _ ("/a".toList) 0 rfl rfl⟩

/-- C6 counterexample: a 3-byte file holding a, NUL, b produces body_len 3
and header Content-Length: 3, but the serialized response reads the body
with strlen and so carries only the single byte before the NUL - not a body
of exactly 3 bytes. -/
theorem C6_counterexample :
    (http_prepare_response
        (fun r => if r = ("/f".toList) then some ['a', nul, 'b'] else none)
        { emptyMessage with resource := some ("/f".toList) } emptyMessage).map
      (fun rsp => (rsp.body_len, rsp.header, http_format_response rsp)) =
      some (3, some (CONTENT_LENGTH ++ ['3'] ++ LINE_END),
        some (STATUS_OK ++ LINE_END ++ (CONTENT_LENGTH ++ ['3'] ++ LINE_END) ++ LINE_END
          ++ ['a'] ++ LINE_END)) ∧
    STATUS_OK ++ LINE_END ++ (CONTENT_LENGTH ++ ['3'] ++ LINE_END) ++ LINE_END
        ++ ['a'] ++ LINE_END ≠
      STATUS_OK ++ LINE_END ++ (CONTENT_LENGTH ++ ['3'] ++ LINE_END) ++ LINE_END
        ++ ['a', nul, 'b'] ++ LINE_END := by
  decide

/-- C6 amended: for every request whose resource resolves to an openable
file of n bytes with n at least 1, the builder produces status 200 OK, body
equal to the full file bytes with body_len = n, and a Content-Length: n
header whose digit string has exactly count_digits n characters, followed by
a line end; the serialized response carries a body of exactly n bytes
whenever the file is NUL-free (otherwise strlen cuts it at the first NUL,
and for n = 0 the C digit count floor(log10(0) + 1) is undefined). -/
theorem C6_success_amended :
    ∀ (fs : List Char → Option (List Char)) (msg rsp0 : Message) (r content : List Char),
      msg.resource = some r → fs r = some content → 0 < content.length →
      ∃ rsp, http_prepare_response fs msg rsp0 = some rsp ∧
        rsp.status = some STATUS_OK ∧
        rsp.body = some content ∧
        rsp.body_len = content.length ∧
        rsp.header = some (CONTENT_LENGTH ++ natToDigits content.length ++ LINE_END) ∧
        (natToDigits content.length).length = count_digits content.length ∧
        (nul ∉ content →
          http_format_response rsp =
            some (STATUS_OK ++ LINE_END
              ++ (CONTENT_LENGTH ++ natToDigits content.length ++ LINE_END)
              ++ LINE_END ++ content ++ LINE_END)) := by
  intro fs msg rsp0 r content hres hfs hpos
  refine ⟨_, prepare_success hres hfs hpos, rfl, rfl, rfl, rfl, natToDigits_length hpos, ?_⟩
  intro hnulc
  rw [format_success rfl rfl rfl, cString_eq_self hnulc]

/-- C6 witness: the amended theorem applied to a file system holding the
two bytes hi at /index.html. -/
theorem C6_success_amended_witness :
    ∃ rsp, http_prepare_response
        (fun r => if r = ("/index.html".toList) then some ("hi".toList) else none)
        { emptyMessage with resource := some ("/index.html".toList) } emptyMessage
        = some rsp ∧
      rsp.status = some STATUS_OK ∧
      rsp.body = some ("hi".toList) ∧
      rsp.body_len = ("hi".toList).length ∧
      rsp.header = some (CONTENT_LENGTH ++ natToDigits ("hi".toList).length ++ LINE_END) ∧
      (natToDigits ("hi".toList).length).length = count_digits ("hi".toList).length ∧
      (nul ∉ ("hi".toList) →
        http_format_response rsp =
          some (STATUS_OK ++ LINE_END
            ++ (CONTENT_LENGTH ++ natToDigits ("hi".toList).length ++ LINE_END)
            ++ LINE_END ++ "hi".toList ++ LINE_END)) :=
  C6_success_amended _ _ emptyMessage ("/index.html".toList) ("hi".toList) rfl (by decide)
    (by decide)

/-- C7: a request whose resource does not resolve produces the fixed status
HTTP/1.1 404 File Not Found with header Connection: close followed by a line
end and leaves the body of the response exactly as it was on entry (absent
for the initialized message the worker passes in); and the 404 is not
worker-terminating: after transmitting the 404 bytes the worker goes back to
receiving, consuming a further receive on the same connection. -/
theorem C7_notfound_continue :
    (∀ (fs : List Char → Option (List Char)) (msg rsp0 : Message) (r : List Char),
      msg.resource = some r → fs r = none →
      ∃ rsp, http_prepare_response fs msg rsp0 = some rsp ∧
        rsp.status = some STATUS_ERROR ∧
        rsp.header = some (CLOSE_CONNECTION ++ LINE_END) ∧
        rsp.body = rsp0.body ∧
        rsp.body_len = rsp0.body_len) ∧
    (∀ g : Nat, workerRun (fun _ => none) 26 g 2 ⟨[], 0, 0⟩
        ["GET /a HTTP/1.1\r\nHost: h\r\n".toList, ['x']] =
      ([STATUS_ERROR ++ LINE_END ++ CLOSE_CONNECTION ++ LINE_END ++ LINE_END], 2)) := by
  constructor
  · intro fs msg rsp0 r hres hfs
    exact ⟨_, prepare_notfound hres hfs, rfl, rfl, rfl, rfl⟩
  · intro g
    rfl

/-- C7 witness: the 404 branch applied to an empty file system and a request
for /a, and the continuation fact at leftover stack value 0. -/
theorem C7_notfound_continue_witness :
    (∃ rsp, http_prepare_response (fun _ => none)
        { emptyMessage with resource := some ("/a".toList) } emptyMessage = some rsp ∧
      rsp.status = some STATUS_ERROR ∧
      rsp.header = some (CLOSE_CONNECTION ++ LINE_END) ∧
      rsp.body = emptyMessage.body ∧
      rsp.body_len = emptyMessage.body_len) ∧
    workerRun (fun _ => none) 26 0 2 ⟨[], 0, 0⟩
        ["GET /a HTTP/1.1\r\nHost: h\r\n".toList, ['x']] =
      ([STATUS_ERROR ++ LINE_END ++ CLOSE_CONNECTION ++ LINE_END ++ LINE_END], 2) :=
  ⟨C7_notfound_continue.1 _ _ emptyMessage ("/a".toList) rfl rfl,
    C7_notfound_continue.2 0⟩

/-- C8 counterexample: with a zero-length buffer the send loop never runs
and the C code returns the uninitialized variable n, so the reported result
is unspecified (modelled as ok = none) even though all 0 bytes were sent -
success is not reported exactly when everything was sent. -/
theorem C8_counterexample :
    sendall 0 [] = some ⟨none, 0, []⟩ ∧
    (⟨none, 0, []⟩ : SendResult).ok ≠ some true := by decide

/-- C8 amended: for every buffer of length n at least 1, sendall repeatedly
invokes the send primitive at the remaining offset with the remaining
length (every recorded call asks for exactly length-minus-offset bytes at an
offset below n), reports success exactly when all n bytes were sent, and on
success the transmitted prefix is the whole buffer; in particular a
primitive accepting only 1 byte per call transmits a 100-byte buffer in
exactly 100 calls before success is reported. -/
theorem C8_sendall_amended :
    (∀ (buf : List Char) (oracle : List (Option Nat)) (res : SendResult),
      1 ≤ buf.length →
      sendall buf.length oracle = some res →
      (res.ok = some true ↔ res.total = buf.length) ∧
      (res.ok = some true → buf.take res.total = buf) ∧
      (∀ q ∈ res.calls, q.2 = buf.length - q.1 ∧ q.1 < buf.length)) ∧
    sendall 100 (List.replicate 100 (some 1)) =
      some ⟨some true, 100, (List.range 100).map (fun i => (i, 100 - i))⟩ := by
  constructor
  · intro buf oracle res hlen h
    have hspec := sendallGo_spec oracle 0 none [] res h (by omega)
      (fun _ => rfl) (fun x hx => by cases hx) (by intro q hq; cases hq)
    rcases hspec with ⟨htot, hok1, hok2, hok3, hcalls⟩
    refine ⟨⟨hok1, ?_⟩, ?_, hcalls⟩
    · intro he
      cases hok : res.ok with
      | none =>
        rcases hok3 hok with ⟨_, hlen0⟩
        omega
      | some b =>
        cases b with
        | false =>
          have := hok2 hok
          omega
        | true => rfl
    · intro hok
      rw [hok1 hok, List.take_length]
  · decide

/-- C8 witness: the amended theorem applied to a 2-byte buffer with a
primitive that accepts one byte per call. -/
theorem C8_sendall_amended_witness :
    ((⟨some true, 2, [(0, 2), (1, 1)]⟩ : SendResult).ok = some true ↔
      (⟨some true, 2, [(0, 2), (1, 1)]⟩ : SendResult).total = ("ab".toList).length) ∧
    ((⟨some true, 2, [(0, 2), (1, 1)]⟩ : SendResult).ok = some true →
      ("ab".toList).take (⟨some true, 2, [(0, 2), (1, 1)]⟩ : SendResult).total
        = "ab".toList) ∧
    (∀ q ∈ (⟨some true, 2, [(0, 2), (1, 1)]⟩ : SendResult).calls,
      q.2 = ("ab".toList).length - q.1 ∧ q.1 < ("ab".toList).length) :=
  C8_sendall_amended.1 ("ab".toList) [some 1, some 1] ⟨some true, 2, [(0, 2), (1, 1)]⟩
    (by decide) (by decide)

/-- C10: http_init_struct_message sets the method to empty and the four
pointer fields to NULL but leaves body_len exactly as it was (never
initialized), and a 404 response built from a freshly initialized message
reaches the second sendall of the worker with body still NULL and body_len
still holding the arbitrary pre-existing value. -/
theorem C10_body_len_frame :
    (∀ m : Message,
      (http_init_struct_message m).method = none ∧
      (http_init_struct_message m).status = none ∧
      (http_init_struct_message m).resource = none ∧
      (http_init_struct_message m).header = none ∧
      (http_init_struct_message m).body = none ∧
      (http_init_struct_message m).body_len = m.body_len) ∧
    (∀ (fs : List Char → Option (List Char)) (req m : Message) (r : List Char),
      req.resource = some r → fs r = none →
      ∃ rsp, http_prepare_response fs req (http_init_struct_message m) = some rsp ∧
        rsp.body = none ∧ rsp.body_len = m.body_len) := by
  constructor
  · intro m
    exact ⟨rfl, rfl, rfl, rfl, rfl, rfl⟩
  · intro fs req m r hres hfs
    exact ⟨_, prepare_notfound hres hfs, rfl, rfl⟩

/-- C10 witness: the frame fact at a message whose body_len holds 77, and
the 404 path showing the value 77 survives to the second sendall. -/
theorem C10_body_len_frame_witness :
    (http_init_struct_message { emptyMessage with body_len := 77 }).body_len = 77 ∧
    (∃ rsp, http_prepare_response (fun _ => none)
        { emptyMessage with resource := some ("/a".toList) }
        (http_init_struct_message { emptyMessage with body_len := 77 }) = some rsp ∧
      rsp.body = none ∧ rsp.body_len = 77) :=
  ⟨(C10_body_len_frame.1 { emptyMessage with body_len := 77 }).2.2.2.2.2,
    C10_body_len_frame.2 (fun _ => none) _ { emptyMessage with body_len := 77 }
      ("/a".toList) rfl rfl⟩
